import Mathlib

/-!
Verification of the LSM-tree storage engine (`lsm-tree` crate plus the
`fjall` keyspace layer) against its natural-language specification.

The development shallowly embeds the Rust sources:

* `src/src/tree.rs` — `Tree` (insert / remove / get / compare_and_swap),
  `append_entry`, `recover` (lsn computation);
* `src/src/batch/mod.rs` — `Batch::commit`;
* `src/fjall/src/journal/shard.rs` — `JournalShard::recover_and_repair`;
* `src/fjall/src/flush/manager.rs` — `LruList` / `FlushManager`.

Byte strings are `List Nat` (each entry < 256 where it matters), sequence
numbers are `Nat` (the u64 counter never overflows in any scenario we
state), and machine-level effects (journal writes, lock operations) are
made explicit, either as returned values or as event traces.
-/

/-- Rust `lsm_tree::ValueType`: a record is either a live value or a tombstone. -/
inductive RValueType where
  | value
  | tombstone
deriving DecidableEq, Repr

/-- Rust `lsm_tree::Value`: `{ key, value, seqno, value_type }`. -/

structure RValue where
  key : List Nat
  value : List Nat
  seqno : Nat
  value_type : RValueType
deriving DecidableEq, Repr

/-- A memtable, modelled as the list of records inserted into it, in
insertion order.

Modelled from the spec: `memtable.rs` is not among the sources; §3 and
§4.1 describe the memtable as an ordered map from `(key, seqno)` to the
record, whose `get(key, ceiling)` returns the newest record for the key
(filtered by the seqno ceiling when one is given). The list model keeps
every inserted record and recovers `get` below. -/

abbrev MemTable := List RValue

/-- Rust `MemTable::insert`. -/

def MemTable.insert (m : MemTable) (v : RValue) : MemTable := m ++ [v]

/-- Records of a memtable carrying exactly this key. -/

def recordsFor (m : MemTable) (k : List Nat) : List RValue :=
  m.filter (fun r => r.key = k)

/-- The newest (highest-seqno) record of a list, if any. -/

def newestOf : List RValue → Option RValue
  | [] => none
  | v :: vs =>
    match newestOf vs with
    | none => some v
    | some w => if w.seqno ≤ v.seqno then some v else some w

/-- Rust `MemTable::get(key, None)` — the newest record with the given key.

Modelled from the spec (§4.1): with an absent seqno ceiling, `get`
returns the newest record stored for the key. -/

def MemTable.get (m : MemTable) (k : List Nat) : Option RValue :=
  newestOf (recordsFor m k)

/-- A segment's record content, for point lookups.  Modelled from the
spec (§4.4): `Segment::get(key, ceiling)` returns the newest record for
the key (the segment reader itself lives outside the given sources), so
a segment behaves like an immutable memtable for point reads. -/

abbrev SegmentData := List RValue

/-- Rust `Segment::get(key, None)` per spec §4.4. -/

def SegmentData.get (s : SegmentData) (k : List Nat) : Option RValue :=
  newestOf (recordsFor s k)

/-- Rust `ignore_tombstone_value` (tree.rs lines 58–64). -/

def ignore_tombstone_value (item : RValue) : Option RValue :=
  if item.value_type = RValueType.tombstone then none else some item

/-- The in-memory state of a `Tree` that the read/write path touches:
the active memtable, the immutable (sealed) memtables as iterated by
`get_internal_entry` (`.iter().rev()`, i.e. newest first), the segments
as returned by `get_all_segments_flattened()` (newest first), and the
`lsn` atomic counter. -/

structure TreeState where
  active : MemTable
  immutables : List MemTable
  segments : List SegmentData
  lsn : Nat

/-- Rust `Tree::get_internal_entry(key, evict_tombstone = true, seqno = None)`
(tree.rs lines 1055–1097): active memtable first, then the sealed
memtables newest first, then the segments newest first; the first layer
holding a record for the key decides, and a tombstone there yields
`none`. -/

def getInternalEntry (s : TreeState) (k : List Nat) : Option RValue :=
  match s.active.get k with
  | some item => ignore_tombstone_value item
  | none =>
    match (s.immutables.map (fun m => m.get k)).findSome? id with
    | some item => ignore_tombstone_value item
    | none =>
      match (s.segments.map (fun seg => seg.get k)).findSome? id with
      | some item => ignore_tombstone_value item
      | none => none

/-- Rust `Tree::get` (tree.rs lines 1119–1121). -/

def treeGet (s : TreeState) (k : List Nat) : Option (List Nat) :=
  (getInternalEntry s k).map (fun r => r.value)

/-- Rust `Tree::insert` (tree.rs lines 729–742): take the shard lock, build a
live record carrying `lsn.fetch_add(1)` as seqno, and run
`append_entry`, which writes the record to the journal shard, drops the
shard guard, and inserts the record into the active memtable. -/

def treeInsert (s : TreeState) (k v : List Nat) : TreeState :=
  { s with
    active := s.active.insert ⟨k, v, s.lsn, RValueType.value⟩
    lsn := s.lsn + 1 }

/-- Rust `Tree::remove` (tree.rs lines 769–782): same shape as `insert`, with
a tombstone record carrying the empty byte string. -/

def treeRemove (s : TreeState) (k : List Nat) : TreeState :=
  { s with
    active := s.active.insert ⟨k, [], s.lsn, RValueType.tombstone⟩
    lsn := s.lsn + 1 }

/-- All records stored anywhere in the tree state. -/

def TreeState.allRecords (s : TreeState) : List RValue :=
  s.active ++ s.immutables.flatten ++ s.segments.flatten

/-- Every stored seqno is below the `lsn` counter — the freshness
invariant every write path maintains. -/

def lsnFresh (s : TreeState) : Prop :=
  ∀ r ∈ s.allRecords, r.seqno < s.lsn

instance (s : TreeState) : Decidable (lsnFresh s) := by
  unfold lsnFresh
  infer_instance

/- ### Batch commit (src/src/batch/mod.rs) -/

/-- An entry accumulated by `Batch::insert` / `Batch::remove`: key,
value bytes and tombstone flag (the seqno slot, initially 0, is
overwritten at commit). -/

structure BatchEntry where
  key : List Nat
  value : List Nat
  tombstone : Bool
deriving DecidableEq, Repr

/-- Rust `Batch::commit` (batch/mod.rs lines 35–64): lock the shard, read the
seqno via one `lsn.fetch_add(1)`, stamp every accumulated item with that
seqno, write the batch to the shard and flush it.  The memtable
application present in the spec is commented out in the source (the
`TODO` block, lines 50–61), so the tree state is left untouched except
for the bumped counter.  Returns the records written to the journal and
the post-commit tree state. -/

def batchCommit (data : List BatchEntry) (s : TreeState) :
    List RValue × TreeState :=
  let batch_seqno := s.lsn
  let written := data.map (fun e =>
    ⟨e.key, e.value, batch_seqno,
      if e.tombstone then RValueType.tombstone else RValueType.value⟩)
  (written, { s with lsn := s.lsn + 1 })

/- ### Recovery lsn computation (src/src/tree.rs lines 613–637) -/

/-- Rust `Tree::recover`'s lsn computation: `memtable.items.map(seqno + 1)
.max().unwrap_or(0)` joined by `max` with
`segments.map(metadata.seqnos.1 + 1).max().unwrap_or(0)`. -/

def recoveredLsn (memtableSeqnos segmentMaxSeqnos : List Nat) : Nat :=
  max ((memtableSeqnos.map (· + 1)).foldr max 0)
    ((segmentMaxSeqnos.map (· + 1)).foldr max 0)

/- ### Flush manager LRU list (src/fjall/src/flush/manager.rs) -/

/-- Rust `LruList`, with partition handles reduced to their names (the list
only ever compares and clones handles by name). -/

abbrev LruList := List String

/-- Rust `LruList::refresh` (manager.rs lines 28–31): drop every entry with
this partition's name, then push the partition to the back. -/

def LruList.refresh (l : LruList) (p : String) : LruList :=
  (l.filter (fun x => x ≠ p)) ++ [p]

/-- Rust `LruList::get_least_recently_used` (manager.rs lines 33–41), which
`FlushManager::flush_least_recently_used_partition` (lines 56–58)
returns verbatim: on an empty list return `none`; otherwise remove the
front, refresh it (making it most recently used) and return it. -/

def LruList.getLeastRecentlyUsed (l : LruList) : Option String × LruList :=
  match l with
  | [] => (none, [])
  | front :: rest => (some front, LruList.refresh rest front)

/- ## Basic lemmas -/

def mergeNewest : Option RValue → Option RValue → Option RValue
  | none, b => b
  | some a, none => some a
  | some a, some b => if b.seqno ≤ a.seqno then some a else some b

def TreeState.layers (s : TreeState) : List (List RValue) :=
  s.active :: (s.immutables ++ s.segments)

/-- First-match-wins lookup through a list of layers. -/

def lookupLayers (ls : List (List RValue)) (k : List Nat) : Option RValue :=
  match ls with
  | [] => none
  | m :: rest =>
    match MemTable.get m k with
    | some r => some r
    | none => lookupLayers rest k

def layersOrderedAt (ls : List (List RValue)) (k : List Nat) : Prop :=
  List.Pairwise
    (fun A B => ∀ a ∈ recordsFor A k, ∀ b ∈ recordsFor B k, b.seqno < a.seqno)
    ls

instance (ls : List (List RValue)) (k : List Nat) :
    Decidable (layersOrderedAt ls k) := by
  unfold layersOrderedAt
  infer_instance

def globalGet (s : TreeState) (k : List Nat) : Option (List Nat) :=
  ((newestOf (recordsFor s.allRecords k)).bind ignore_tombstone_value).map
    (fun r => r.value)

inductive WriteEvent where
  | journalWrite
  | releaseShardLock
  | memtableInsert
  | returnOk
deriving DecidableEq, Repr

/-- Position of the first occurrence of an event in a trace. -/

def posOf (e : WriteEvent) : List WriteEvent → Nat
  | [] => 0
  | x :: xs => if x = e then 0 else posOf e xs + 1

/-- The event order of `Tree::append_entry` (tree.rs lines 679–708):
`shard.write(&value)`, then `drop(shard)` (releasing the journal shard
lock), then `memtable_lock.insert(value)` under the active-memtable read
lock, then return `Ok`. -/

def appendEntryEvents : List WriteEvent :=
  [WriteEvent.journalWrite, WriteEvent.releaseShardLock,
    WriteEvent.memtableInsert, WriteEvent.returnOk]

/- ### Compare-and-swap (src/src/tree.rs lines 1132–1221) -/

/-- Rust `CompareAndSwapError { prev, next }` (tree.rs lines 30–36). -/

structure CompareAndSwapError where
  prev : Option (List Nat)
  next : Option (List Nat)
deriving DecidableEq, Repr

/-- The pure core of `Tree::compare_and_swap` (tree.rs lines 1132–1221)
once the layered read has produced `current = self.get(key)?` and the
fresh seqno has been drawn: the returned
`CompareAndSwapResult` together with the record handed to
`append_entry`, `none` when no write is performed. -/

def compareAndSwap (current expected next : Option (List Nat))
    (k : List Nat) (seqno : Nat) :
    (Unit ⊕ CompareAndSwapError) × Option RValue :=
  match current with
  | some current_value =>
    match expected with
    | some expected_value =>
      if current_value ≠ expected_value then
        (Sum.inr ⟨some current_value, next⟩, none)
      else
        match next with
        | some next_value =>
          (Sum.inl (), some ⟨k, next_value, seqno, RValueType.value⟩)
        | none =>
          (Sum.inl (), some ⟨k, [], seqno, RValueType.tombstone⟩)
    | none => (Sum.inr ⟨none, next⟩, none)
  | none =>
    match expected with
    | some _ => (Sum.inr ⟨none, next⟩, none)
    | none =>
      match next with
      | some next_value =>
        (Sum.inl (), some ⟨k, next_value, seqno, RValueType.value⟩)
      | none => (Sum.inl (), none)

/- ### Iterated inserts, for the seqno-freshness claim -/

/-- A sequence of `Tree::insert` calls applied in order. -/

def applyInserts (s : TreeState) : List (List Nat × List Nat) → TreeState
  | [] => s
  | (k, v) :: ws => applyInserts (treeInsert s k v) ws

inductive RecoveryError where
  | insufficientLength
  | missingTerminator
  | tooManyItems
  | crcCheck
deriving DecidableEq, Repr

/-- Rust `crate::batch::Item`: partition name, key, value bytes, value type. -/

structure JItem where
  partition : String
  key : List Nat
  value : List Nat
  value_type : RValueType
deriving DecidableEq, Repr

/-- The fjall journal `Marker` as matched by `recover_and_repair`:
`Start { item_count, seqno }`, `Item { partition, key, value,
value_type }`, `End(crc32)`. -/

inductive JMarker where
  | start (item_count : Nat) (seqno : Nat)
  | item (partition : String) (key : List Nat) (value : List Nat)
      (value_type : RValueType)
  | end_ (checksum : Nat)
deriving DecidableEq, Repr

/-- One bit-round of the reflected CRC-32 with polynomial
`0xEDB88320`, as computed by `crc32fast`. -/

def crc32Round (c : Nat) : Nat :=
  if c % 2 = 1 then (c / 2) ^^^ 0xEDB88320 else c / 2

/-- Feed one byte into the CRC-32 state (eight bit-rounds). -/

def crc32UpdateByte (c b : Nat) : Nat :=
  crc32Round (crc32Round (crc32Round (crc32Round (crc32Round
    (crc32Round (crc32Round (crc32Round (c ^^^ (b % 256)))))))))

/-- Rust `crc32fast::Hasher::update` over a byte list. -/

def crc32Update (c : Nat) (bs : List Nat) : Nat :=
  bs.foldl crc32UpdateByte c

/-- The state of a fresh `crc32fast::Hasher`. -/

def crc32Init : Nat := 0xFFFFFFFF

/-- Rust `crc32fast::Hasher::finalize`. -/

def crc32Final (c : Nat) : Nat := c ^^^ 0xFFFFFFFF

/-- CRC-32 of a byte list. -/

def crc32 (bs : List Nat) : Nat := crc32Final (crc32Update crc32Init bs)

/-- Big-endian `u32` bytes.  Modelled from the spec (§6): integers are
big-endian, length prefixes are u32. -/

def be32 (n : Nat) : List Nat :=
  [n / 2 ^ 24 % 256, n / 2 ^ 16 % 256, n / 2 ^ 8 % 256, n % 256]

/-- The `u8 value_type` byte.  Modelled from the spec (§6): the exact
numbering is not fixed by the given sources; 0 encodes a live value and
1 a tombstone. -/

def vtByte : RValueType → Nat
  | RValueType.value => 0
  | RValueType.tombstone => 1

/-- Serialized bytes of an `Item` marker.  Modelled from the spec (§6):
`Item : 0x01 | len-prefixed partition | len-prefixed key |
u8 value_type | len-prefixed value`; this is what shard.rs feeds to the
hasher for each item. -/

def serializeItemMarker (p : String) (k v : List Nat) (t : RValueType) :
    List Nat :=
  1 :: (be32 p.length ++ (p.toList.map Char.toNat) ++ be32 k.length ++ k ++
    [vtByte t] ++ be32 v.length ++ v)

/-- On-disk byte size of a marker.  Modelled from the spec (§6):
`Start: 0x00 | u32 | u64` is 13 bytes, `End: 0x02 | u32` is 5 bytes, an
`Item` occupies its serialization. -/

def markerSize : JMarker → Nat
  | JMarker.start _ _ => 13
  | JMarker.item p k v t => (serializeItemMarker p k v t).length
  | JMarker.end_ _ => 5

def markersSize (ms : List JMarker) : Nat := (ms.map markerSize).sum

/-- The `(journal_file_pos, marker)` stream the `JournalShardReader`
yields.  Modelled from the spec (§4.2 recovery step 1): the position
recorded for a marker is the byte offset just after it, since
`last_valid_pos` — set to the reported position of each validated `End`
— is "the byte offset just after the last `End` marker successfully
validated". -/

def annotate (pos : Nat) : List JMarker → List (Nat × JMarker)
  | [] => []
  | m :: ms => (pos + markerSize m, m) :: annotate (pos + markerSize m) ms

/-- The per-partition memtables recovery fills
(`HashMap<Arc<str>, MemTable>`). -/

def Memtables := String → MemTable

/-- Rust `memtables.entry(partition).or_default()` followed by
`MemTable::insert`. -/

def Memtables.insert (ms : Memtables) (p : String) (v : RValue) :
    Memtables :=
  fun q => if q = p then MemTable.insert (ms q) v else ms q

/-- The mutable state of the recovery loop in `recover_and_repair`
(shard.rs lines 69–75), together with the truncation it performed, if
any (`file.set_len(last_valid_pos)`). -/

structure RecState where
  hasher : Nat
  is_in_batch : Bool
  batch_counter : Nat
  batch_seqno : Nat
  last_valid_pos : Nat
  items : List JItem
  memtables : Memtables
  truncated : Option Nat

/-- Applying a validated batch's pending items to the memtables
(shard.rs lines 137–154): each item is filtered by the whitelist, then
inserted into its partition's memtable with the batch's seqno. -/

def applyItems (wl : Option (List String)) (seqno : Nat) :
    Memtables → List JItem → Memtables
  | ms, [] => ms
  | ms, it :: rest =>
    match wl with
    | some w =>
      if it.partition ∈ w then
        applyItems wl seqno
          (ms.insert it.partition ⟨it.key, it.value, seqno, it.value_type⟩)
          rest
      else
        applyItems wl seqno ms rest
    | none =>
      applyItems wl seqno
        (ms.insert it.partition ⟨it.key, it.value, seqno, it.value_type⟩)
        rest

/-- Outcome of one iteration of the recovery loop: continue, `break 'a`
(after truncating), or return an error. -/

inductive StepOutcome where
  | next (st : RecState)
  | stop (st : RecState)
  | fail (st : RecState) (e : RecoveryError)

/-- One iteration of the `'a` loop of `recover_and_repair` (shard.rs
lines 77–202), faithful to the branch order of the source:

* `Start` inside a batch → truncate to `last_valid_pos`, break;
  otherwise enter the batch, record `item_count` and `seqno`.
* `End` with `batch_counter > 0` → `InsufficientLength`; `End` outside a
  batch → truncate, break; CRC mismatch → `CrcCheck`; otherwise apply
  the pending items, reset the batch state and advance
  `last_valid_pos` to this marker's position.
* `Item` → feed the serialized marker to the hasher first; outside a
  batch → truncate, break; `batch_counter == 0` → `TooManyItems`;
  otherwise decrement the counter and push the item. -/

def recoverStep (wl : Option (List String)) (st : RecState) :
    Nat × JMarker → StepOutcome
  | (_, JMarker.start item_count seqno) =>
    if st.is_in_batch then
      StepOutcome.stop { st with truncated := some st.last_valid_pos }
    else
      StepOutcome.next
        { st with
          is_in_batch := true
          batch_counter := item_count
          batch_seqno := seqno }
  | (journal_file_pos, JMarker.end_ checksum) =>
    if 0 < st.batch_counter then
      StepOutcome.fail st RecoveryError.insufficientLength
    else if !st.is_in_batch then
      StepOutcome.stop { st with truncated := some st.last_valid_pos }
    else if crc32Final st.hasher ≠ checksum then
      StepOutcome.fail st RecoveryError.crcCheck
    else
      StepOutcome.next
        { st with
          hasher := crc32Init
          is_in_batch := false
          batch_counter := 0
          items := []
          memtables := applyItems wl st.batch_seqno st.memtables st.items
          last_valid_pos := journal_file_pos }
  | (_, JMarker.item p k v t) =>
    let st' := { st with
      hasher := crc32Update st.hasher (serializeItemMarker p k v t) }
    if !st'.is_in_batch then
      StepOutcome.stop { st' with truncated := some st'.last_valid_pos }
    else if st'.batch_counter = 0 then
      StepOutcome.fail st' RecoveryError.tooManyItems
    else
      StepOutcome.next
        { st' with
          batch_counter := st'.batch_counter - 1
          items := st'.items ++ [⟨p, k, v, t⟩] }

/-- Result of `recover_and_repair`: the final loop state (including any
truncation) and the error returned, if any. -/

structure RecOutcome where
  state : RecState
  error : Option RecoveryError

/-- The `'a` loop. -/

def runLoop (wl : Option (List String)) :
    RecState → List (Nat × JMarker) → RecOutcome
  | st, [] => ⟨st, none⟩
  | st, pm :: rest =>
    match recoverStep wl st pm with
    | StepOutcome.next st' => runLoop wl st' rest
    | StepOutcome.stop st' => ⟨st', none⟩
    | StepOutcome.fail st' e => ⟨st', some e⟩

/-- Initial loop state (shard.rs lines 69–75): fresh hasher, not in a
batch, counters zero, `last_valid_pos = 0`, no pending items, empty
memtables, nothing truncated. -/

def initRecState : RecState :=
  ⟨crc32Init, false, 0, 0, 0, [], fun _ => [], none⟩

/-- The check after the loop (shard.rs lines 204–212): at EOF with
`is_in_batch` still true, the last batch was incomplete — truncate to
`last_valid_pos` and still return `Ok`. -/

def finishRecovery (out : RecOutcome) : RecOutcome :=
  match out.error with
  | some _ => out
  | none =>
    if out.state.is_in_batch then
      ⟨{ out.state with truncated := some out.state.last_valid_pos }, none⟩
    else out

/-- Rust `JournalShard::recover_and_repair` over a marker stream: run the
`'a` loop from the initial state, then apply the EOF check. -/

def recoverAndRepair (wl : Option (List String))
    (markers : List JMarker) : RecOutcome :=
  finishRecovery (runLoop wl initRecState (annotate 0 markers))

/-- The `Item` marker of a batch item. -/

def itemMarker (it : JItem) : JMarker :=
  JMarker.item it.partition it.key it.value it.value_type

/-- Concatenated serialized `Item` records of a batch — what the batch
CRC is computed over (spec §6). -/

def serializedItems (its : List JItem) : List Nat :=
  (its.map (fun it =>
    serializeItemMarker it.partition it.key it.value it.value_type)).flatten

/-- The marker sequence of one well-formed batch:
`Start(n, seqno)`, `n` items, `End` carrying the CRC-32 of the
serialized items. -/

def batchMarkers (seqno : Nat) (its : List JItem) : List JMarker :=
  JMarker.start its.length seqno ::
    (its.map itemMarker ++ [JMarker.end_ (crc32 (serializedItems its))])

/-- A journal consisting of complete, valid batches. -/

def goodRun (batches : List (Nat × List JItem)) : List JMarker :=
  (batches.map (fun b => batchMarkers b.1 b.2)).flatten

/-- Memtables after replaying a list of batches. -/

def applyBatches (wl : Option (List String)) :
    Memtables → List (Nat × List JItem) → Memtables
  | ms, [] => ms
  | ms, (seqno, its) :: rest =>
    applyBatches wl (applyItems wl seqno ms its) rest

def cleanState (ms : Memtables) (lvp sq : Nat) : RecState :=
  ⟨crc32Init, false, 0, sq, lvp, [], ms, none⟩

def lastSeqno : List (Nat × List JItem) → Nat → Nat
  | [], sq => sq
  | (q, _) :: rest, _ => lastSeqno rest q

def StepOutcome.err : StepOutcome → Option RecoveryError
  | StepOutcome.next _ => none
  | StepOutcome.stop _ => none
  | StepOutcome.fail _ e => some e

/- ## Theorems -/

theorem newestOf_eq_none_iff (l : List RValue) :
    newestOf l = none ↔ l = [] := by
  cases l with
  | nil => simp [newestOf]
  | cons v vs =>
    simp only [newestOf]
    cases h : newestOf vs with
    | none => simp
    | some w =>
      constructor
      · intro hc
        by_cases hle : w.seqno ≤ v.seqno <;> simp [hle] at hc
      · intro hc
        exact absurd hc (List.cons_ne_nil _ _)

theorem newestOf_mem {l : List RValue} {r : RValue}
    (h : newestOf l = some r) : r ∈ l := by
  induction l with
  | nil => simp [newestOf] at h
  | cons v vs ih =>
    simp only [newestOf] at h
    cases hv : newestOf vs with
    | none =>
      rw [hv] at h
      simp only [Option.some.injEq] at h
      simp [← h]
    | some w =>
      rw [hv] at h
      by_cases hle : w.seqno ≤ v.seqno
      · simp only [hle, if_true, Option.some.injEq] at h
        simp [← h]
      · simp only [hle, if_false, Option.some.injEq] at h
        exact List.mem_cons_of_mem _ (ih (h ▸ hv))

theorem newestOf_is_max : ∀ {l : List RValue} {r : RValue},
    newestOf l = some r → ∀ x ∈ l, x.seqno ≤ r.seqno := by
  intro l
  induction l with
  | nil =>
    intro r h x hx
    simp at hx
  | cons v vs ih =>
    intro r h x hx
    simp only [newestOf] at h
    cases hv : newestOf vs with
    | none =>
      rw [hv] at h
      simp only [Option.some.injEq] at h
      rw [newestOf_eq_none_iff] at hv
      subst hv
      simp only [List.mem_singleton] at hx
      subst hx
      exact h ▸ le_refl _
    | some w =>
      rw [hv] at h
      rcases List.mem_cons.1 hx with hx | hx
      · subst hx
        by_cases hle : w.seqno ≤ x.seqno
        · simp only [hle, if_true, Option.some.injEq] at h
          exact h ▸ le_refl _
        · simp only [hle, if_false, Option.some.injEq] at h
          subst h
          omega
      · have hxw : x.seqno ≤ w.seqno := ih hv x hx
        by_cases hle : w.seqno ≤ v.seqno
        · simp only [hle, if_true, Option.some.injEq] at h
          subst h
          omega
        · simp only [hle, if_false, Option.some.injEq] at h
          subst h
          exact hxw

/-- Preferring the newer of two optional records (ties go left), the
combinator underlying `newestOf` on concatenations. -/

theorem mergeNewest_none_right (a : Option RValue) :
    mergeNewest a none = a := by
  cases a <;> rfl

theorem mergeNewest_assoc (a b c : Option RValue) :
    mergeNewest a (mergeNewest b c) = mergeNewest (mergeNewest a b) c := by
  cases a with
  | none => rfl
  | some x =>
    cases b with
    | none => rfl
    | some y =>
      cases c with
      | none =>
        by_cases hyx : y.seqno ≤ x.seqno <;> simp [mergeNewest, hyx]
      | some z =>
        simp only [mergeNewest]
        by_cases hzy : z.seqno ≤ y.seqno <;>
          by_cases hyx : y.seqno ≤ x.seqno <;>
          by_cases hzx : z.seqno ≤ x.seqno <;>
          simp [hzy, hyx, hzx] <;> omega

theorem newestOf_cons (v : RValue) (l : List RValue) :
    newestOf (v :: l) = mergeNewest (some v) (newestOf l) := by
  simp only [newestOf]
  cases newestOf l <;> rfl

theorem newestOf_append (A B : List RValue) :
    newestOf (A ++ B) = mergeNewest (newestOf A) (newestOf B) := by
  induction A with
  | nil => simp [newestOf, mergeNewest]
  | cons v vs ih =>
    rw [List.cons_append, newestOf_cons, ih, newestOf_cons,
      mergeNewest_assoc]

theorem newestOf_append_strict {A : List RValue} {t : RValue}
    (h : ∀ a ∈ A, a.seqno < t.seqno) :
    newestOf (A ++ [t]) = some t := by
  rw [newestOf_append]
  cases hA : newestOf A with
  | none => rfl
  | some a =>
    have := h a (newestOf_mem hA)
    simp only [newestOf, mergeNewest]
    have hnot : ¬ t.seqno ≤ a.seqno := by omega
    simp [hnot]

theorem recordsFor_append (A B : List RValue) (k : List Nat) :
    recordsFor (A ++ B) k = recordsFor A k ++ recordsFor B k := by
  simp [recordsFor, List.filter_append]

/-- The read layers of the tree, in consultation order: active memtable,
sealed memtables newest first, segments newest first. -/

theorem findSome?_get_eq_lookupLayers (ls : List (List RValue)) (k : List Nat) :
    (ls.map (fun m => MemTable.get m k)).findSome? id = lookupLayers ls k := by
  induction ls with
  | nil => rfl
  | cons m rest ih =>
    simp only [List.map_cons, List.findSome?_cons, lookupLayers]
    cases MemTable.get m k with
    | none => simpa using ih
    | some r => rfl

theorem lookupLayers_append (A B : List (List RValue)) (k : List Nat) :
    lookupLayers (A ++ B) k = (lookupLayers A k).or (lookupLayers B k) := by
  induction A with
  | nil => simp [lookupLayers]
  | cons m rest ih =>
    simp only [List.cons_append, lookupLayers]
    cases MemTable.get m k with
    | some r => rfl
    | none => exact ih

theorem SegmentData.get_eq_memtable_get (s : SegmentData) (k : List Nat) :
    SegmentData.get s k = MemTable.get s k := rfl

/-- Rust `get_internal_entry` is first-match-wins over the layer list. -/

theorem getInternalEntry_eq_lookupLayers (s : TreeState) (k : List Nat) :
    getInternalEntry s k = (lookupLayers s.layers k).bind ignore_tombstone_value := by
  simp only [getInternalEntry, TreeState.layers, lookupLayers,
    SegmentData.get_eq_memtable_get]
  cases MemTable.get s.active k with
  | some r => rfl
  | none =>
    rw [lookupLayers_append, ← findSome?_get_eq_lookupLayers s.immutables k,
      ← findSome?_get_eq_lookupLayers s.segments k]
    cases (s.immutables.map (fun m => MemTable.get m k)).findSome? id with
    | some r => rfl
    | none =>
      cases (s.segments.map (fun m => MemTable.get m k)).findSome? id with
      | some r => rfl
      | none => rfl

/-- The layer seqno ordering at key `k`: any record for `k` held in an
earlier (newer) layer has a strictly larger seqno than any record for
`k` in a later (older) layer. -/

theorem mem_recordsFor_flatten {rest : List (List RValue)} {k : List Nat}
    {b : RValue} (hb : b ∈ recordsFor rest.flatten k) :
    ∃ B ∈ rest, b ∈ recordsFor B k := by
  simp only [recordsFor, List.mem_filter, List.mem_flatten] at hb ⊢
  obtain ⟨⟨B, hB, hbB⟩, hk⟩ := hb
  exact ⟨B, hB, hbB, hk⟩

/-- First-match-wins through seqno-ordered layers computes the global
newest record. -/

theorem lookupLayers_eq_newest : ∀ {ls : List (List RValue)} {k : List Nat},
    layersOrderedAt ls k →
    lookupLayers ls k = newestOf (recordsFor ls.flatten k) := by
  intro ls
  induction ls with
  | nil =>
    intro k _
    rfl
  | cons m rest ih =>
    intro k h
    rw [layersOrderedAt, List.pairwise_cons] at h
    obtain ⟨hm, hrest⟩ := h
    rw [List.flatten_cons, recordsFor_append, newestOf_append]
    simp only [lookupLayers]
    cases hg : MemTable.get m k with
    | none =>
      have : recordsFor m k = [] := by
        rw [← newestOf_eq_none_iff]
        exact hg
      rw [ih hrest, this]
      simp [newestOf, mergeNewest]
    | some r =>
      have hr : newestOf (recordsFor m k) = some r := hg
      rw [hr]
      cases hB : newestOf (recordsFor rest.flatten k) with
      | none => rfl
      | some b =>
        obtain ⟨B, hBmem, hbB⟩ := mem_recordsFor_flatten (newestOf_mem hB)
        have hlt : b.seqno < r.seqno :=
          hm B hBmem r (newestOf_mem hr) b hbB
        simp only [mergeNewest]
        have : b.seqno ≤ r.seqno := by omega
        simp [this]

/- ### Claim-side lookup definition (spec §4.4 / §8.8 wording) -/

/-- The spec's description of `get`: the highest-seqno record for the
key across memtables and all segments, with a tombstone meaning
"absent".  Stated over a flat scan, independent of the layered search
order the code uses. -/

theorem layers_flatten (s : TreeState) :
    s.layers.flatten = s.allRecords := by
  simp [TreeState.layers, TreeState.allRecords]

/- ### Write-path event traces (src/src/tree.rs lines 679–708) -/

/-- The observable steps of `Tree::append_entry`, in program order. -/

theorem applyInserts_lsn_ge (ws : List (List Nat × List Nat)) :
    ∀ s : TreeState, s.lsn ≤ (applyInserts s ws).lsn := by
  induction ws with
  | nil =>
    intro s
    exact le_refl _
  | cons w ws ih =>
    intro s
    obtain ⟨k, v⟩ := w
    have := ih (treeInsert s k v)
    simp only [treeInsert] at this
    calc s.lsn ≤ s.lsn + 1 := Nat.le_succ _
      _ ≤ _ := this

theorem applyInserts_active_spec (ws : List (List Nat × List Nat)) :
    ∀ (s : TreeState) (r : RValue), r ∈ (applyInserts s ws).active →
      r ∈ s.active ∨ s.lsn ≤ r.seqno := by
  induction ws with
  | nil =>
    intro s r hr
    exact Or.inl hr
  | cons w ws ih =>
    intro s r hr
    obtain ⟨k, v⟩ := w
    rcases ih (treeInsert s k v) r hr with hmem | hge
    · simp only [treeInsert, MemTable.insert, List.mem_append,
        List.mem_singleton] at hmem
      rcases hmem with hmem | hmem
      · exact Or.inl hmem
      · subst hmem
        exact Or.inr (le_refl _)
    · simp only [treeInsert] at hge
      exact Or.inr (by omega)

/- ### Read-after-write lemmas -/

theorem active_get_after_insert {s : TreeState} {k v : List Nat}
    (h : lsnFresh s) :
    MemTable.get (treeInsert s k v).active k =
      some ⟨k, v, s.lsn, RValueType.value⟩ := by
  simp only [treeInsert, MemTable.insert, MemTable.get, recordsFor,
    List.filter_append]
  rw [show (List.filter (fun r => decide (r.key = k))
      [(⟨k, v, s.lsn, RValueType.value⟩ : RValue)]) =
      [⟨k, v, s.lsn, RValueType.value⟩] by simp]
  apply newestOf_append_strict
  intro a ha
  have : a ∈ s.allRecords := by
    simp only [TreeState.allRecords, List.mem_append]
    exact Or.inl (Or.inl (List.mem_of_mem_filter ha))
  exact h a this

theorem active_get_after_remove {s : TreeState} {k : List Nat}
    (h : lsnFresh s) :
    MemTable.get (treeRemove s k).active k =
      some ⟨k, [], s.lsn, RValueType.tombstone⟩ := by
  simp only [treeRemove, MemTable.insert, MemTable.get, recordsFor,
    List.filter_append]
  rw [show (List.filter (fun r => decide (r.key = k))
      [(⟨k, [], s.lsn, RValueType.tombstone⟩ : RValue)]) =
      [⟨k, [], s.lsn, RValueType.tombstone⟩] by simp]
  apply newestOf_append_strict
  intro a ha
  have : a ∈ s.allRecords := by
    simp only [TreeState.allRecords, List.mem_append]
    exact Or.inl (Or.inl (List.mem_of_mem_filter ha))
  exact h a this

theorem treeGet_after_insert {s : TreeState} {k v : List Nat}
    (h : lsnFresh s) : treeGet (treeInsert s k v) k = some v := by
  simp only [treeGet, getInternalEntry, active_get_after_insert h,
    ignore_tombstone_value]
  rfl

theorem lsnFresh_insert {s : TreeState} {k v : List Nat}
    (h : lsnFresh s) : lsnFresh (treeInsert s k v) := by
  intro r hr
  simp only [treeInsert, TreeState.allRecords, MemTable.insert,
    List.mem_append, List.mem_singleton] at hr ⊢
  rcases hr with ((hr | hr) | hr) | hr
  · have := h r (by simp [TreeState.allRecords, hr])
    omega
  · subst hr
    exact Nat.lt_succ_self _
  · have := h r (by simp [TreeState.allRecords, hr])
    omega
  · have := h r (by simp [TreeState.allRecords, hr])
    omega

theorem treeGet_after_remove {s : TreeState} {k : List Nat}
    (h : lsnFresh s) : treeGet (treeRemove s k) k = none := by
  simp only [treeGet, getInternalEntry, active_get_after_remove h,
    ignore_tombstone_value]
  rfl

/- ### Journal shard recovery (src/fjall/src/journal/shard.rs) -/

/-- Rust `RecoveryError` (shard.rs lines 14–27). -/

theorem markersSize_cons (m : JMarker) (ms : List JMarker) :
    markersSize (m :: ms) = markerSize m + markersSize ms := by
  simp [markersSize]

theorem markersSize_append (xs ys : List JMarker) :
    markersSize (xs ++ ys) = markersSize xs + markersSize ys := by
  simp [markersSize]

theorem annotate_append (xs ys : List JMarker) :
    ∀ pos, annotate pos (xs ++ ys) =
      annotate pos xs ++ annotate (pos + markersSize xs) ys := by
  induction xs with
  | nil =>
    intro pos
    simp [annotate, markersSize]
  | cons m ms ih =>
    intro pos
    simp only [List.cons_append, annotate, List.append_eq]
    rw [ih (pos + markerSize m)]
    have h : pos + markerSize m + markersSize ms = pos + markersSize (m :: ms) := by
      rw [markersSize_cons]
      omega
    rw [h]

theorem serializedItems_cons (it : JItem) (its : List JItem) :
    serializedItems (it :: its) =
      serializeItemMarker it.partition it.key it.value it.value_type ++
        serializedItems its := by
  simp [serializedItems]

theorem crc32Update_append (c : Nat) (a b : List Nat) :
    crc32Update c (a ++ b) = crc32Update (crc32Update c a) b := by
  simp [crc32Update, List.foldl_append]

theorem runLoop_cons (wl : Option (List String)) (st : RecState)
    (pm : Nat × JMarker) (rest : List (Nat × JMarker)) :
    runLoop wl st (pm :: rest) =
      match recoverStep wl st pm with
      | StepOutcome.next st' => runLoop wl st' rest
      | StepOutcome.stop st' => ⟨st', none⟩
      | StepOutcome.fail st' e => ⟨st', some e⟩ := rfl

theorem runLoop_next {wl : Option (List String)} {st st' : RecState}
    {pm : Nat × JMarker} (h : recoverStep wl st pm = StepOutcome.next st')
    (rest : List (Nat × JMarker)) :
    runLoop wl st (pm :: rest) = runLoop wl st' rest := by
  rw [runLoop_cons, h]

theorem runLoop_stop {wl : Option (List String)} {st st' : RecState}
    {pm : Nat × JMarker} (h : recoverStep wl st pm = StepOutcome.stop st')
    (rest : List (Nat × JMarker)) :
    runLoop wl st (pm :: rest) = ⟨st', none⟩ := by
  rw [runLoop_cons, h]

theorem runLoop_fail {wl : Option (List String)} {st st' : RecState}
    {pm : Nat × JMarker} {e : RecoveryError}
    (h : recoverStep wl st pm = StepOutcome.fail st' e)
    (rest : List (Nat × JMarker)) :
    runLoop wl st (pm :: rest) = ⟨st', some e⟩ := by
  rw [runLoop_cons, h]

/- Step lemmas, one for each branch of the recovery loop body. -/

theorem recoverStep_start_ok {st : RecState} (h : st.is_in_batch = false)
    (wl : Option (List String)) (pos item_count seqno : Nat) :
    recoverStep wl st (pos, JMarker.start item_count seqno) =
      StepOutcome.next
        { st with
          is_in_batch := true
          batch_counter := item_count
          batch_seqno := seqno } := by
  simp [recoverStep, h]

theorem recoverStep_start_stop {st : RecState} (h : st.is_in_batch = true)
    (wl : Option (List String)) (pos item_count seqno : Nat) :
    recoverStep wl st (pos, JMarker.start item_count seqno) =
      StepOutcome.stop { st with truncated := some st.last_valid_pos } := by
  simp [recoverStep, h]

theorem recoverStep_item_ok {st : RecState} (hin : st.is_in_batch = true)
    (hc : st.batch_counter ≠ 0) (wl : Option (List String)) (pos : Nat)
    (p : String) (k v : List Nat) (t : RValueType) :
    recoverStep wl st (pos, JMarker.item p k v t) =
      StepOutcome.next
        { st with
          hasher := crc32Update st.hasher (serializeItemMarker p k v t)
          batch_counter := st.batch_counter - 1
          items := st.items ++ [⟨p, k, v, t⟩] } := by
  simp [recoverStep, hin, hc]

theorem recoverStep_item_tooMany {st : RecState}
    (hin : st.is_in_batch = true) (hc : st.batch_counter = 0)
    (wl : Option (List String)) (pos : Nat)
    (p : String) (k v : List Nat) (t : RValueType) :
    recoverStep wl st (pos, JMarker.item p k v t) =
      StepOutcome.fail
        { st with
          hasher := crc32Update st.hasher (serializeItemMarker p k v t) }
        RecoveryError.tooManyItems := by
  simp [recoverStep, hin, hc]

theorem recoverStep_end_ok {st : RecState} {checksum : Nat}
    (hc : st.batch_counter = 0) (hin : st.is_in_batch = true)
    (hcrc : crc32Final st.hasher = checksum)
    (wl : Option (List String)) (pos : Nat) :
    recoverStep wl st (pos, JMarker.end_ checksum) =
      StepOutcome.next
        { st with
          hasher := crc32Init
          is_in_batch := false
          batch_counter := 0
          items := []
          memtables := applyItems wl st.batch_seqno st.memtables st.items
          last_valid_pos := pos } := by
  simp [recoverStep, hc, hin, hcrc]

theorem recoverStep_end_insufficient {st : RecState}
    (hc : 0 < st.batch_counter) (wl : Option (List String))
    (pos checksum : Nat) :
    recoverStep wl st (pos, JMarker.end_ checksum) =
      StepOutcome.fail st RecoveryError.insufficientLength := by
  simp [recoverStep, hc]

theorem recoverStep_end_crc {st : RecState} {checksum : Nat}
    (hc : st.batch_counter = 0) (hin : st.is_in_batch = true)
    (hcrc : crc32Final st.hasher ≠ checksum)
    (wl : Option (List String)) (pos : Nat) :
    recoverStep wl st (pos, JMarker.end_ checksum) =
      StepOutcome.fail st RecoveryError.crcCheck := by
  simp [recoverStep, hc, hin, hcrc]

theorem runLoop_items (wl : Option (List String)) (its : List JItem) :
    ∀ (st : RecState) (pos : Nat) (rest : List (Nat × JMarker)),
      st.is_in_batch = true →
      its.length ≤ st.batch_counter →
      runLoop wl st (annotate pos (its.map itemMarker) ++ rest) =
        runLoop wl
          { st with
            hasher := crc32Update st.hasher (serializedItems its)
            batch_counter := st.batch_counter - its.length
            items := st.items ++ its } rest := by
  induction its with
  | nil =>
    intro st pos rest hin hle
    simp only [List.map_nil, annotate, List.nil_append, serializedItems,
      List.flatten_nil, Nat.sub_zero, List.append_nil]
    rfl
  | cons it its' ih =>
    intro st pos rest hin hle
    simp only [List.length_cons] at hle
    obtain ⟨ip, ik, iv, it'⟩ := it
    simp only [List.map_cons, annotate, List.cons_append, itemMarker]
    rw [runLoop_next (recoverStep_item_ok hin (by omega) wl _ ip ik iv it')]
    rw [ih _ _ rest (by exact hin) (by simp only; omega)]
    simp only [serializedItems_cons, crc32Update_append]
    have hc : st.batch_counter - 1 - its'.length =
        st.batch_counter - (its'.length + 1) := by omega
    have hi : (st.items ++ [(⟨ip, ik, iv, it'⟩ : JItem)]) ++ its' =
        st.items ++ (⟨ip, ik, iv, it'⟩ : JItem) :: its' := by
      simp
    simp only [List.length_cons, hc, hi]

/-- The loop state between batches: fresh hasher, outside a batch, no
pending items; carrying the memtables built so far, `last_valid_pos`,
and the last batch seqno seen. -/

theorem runLoop_batch (wl : Option (List String)) (q : Nat)
    (its : List JItem) (ms : Memtables) (lvp sq pos : Nat)
    (rest : List (Nat × JMarker)) :
    runLoop wl (cleanState ms lvp sq)
        (annotate pos (batchMarkers q its) ++ rest) =
      runLoop wl
        (cleanState (applyItems wl q ms its)
          (pos + markersSize (batchMarkers q its)) q) rest := by
  simp only [batchMarkers, annotate, List.cons_append, markerSize]
  rw [runLoop_next (recoverStep_start_ok rfl wl _ its.length q)]
  rw [annotate_append, List.append_assoc]
  rw [runLoop_items wl its _ _ _ rfl (le_refl _)]
  simp only [cleanState, Nat.sub_self, List.nil_append, annotate,
    List.cons_append, List.nil_append, markerSize]
  rw [runLoop_next (@recoverStep_end_ok
    ⟨crc32Update crc32Init (serializedItems its), true, 0, q, lvp, its, ms, none⟩
    (crc32 (serializedItems its)) rfl rfl rfl wl _)]
  have hsz : pos + 13 + markersSize (List.map itemMarker its) + 5 =
      pos + markersSize
        (JMarker.start its.length q ::
          (List.map itemMarker its ++ [JMarker.end_ (crc32 (serializedItems its))])) := by
    rw [markersSize_cons, markersSize_append]
    simp only [markerSize, markersSize, List.map_cons, List.map_nil,
      List.sum_cons, List.sum_nil]
    omega
  rw [hsz]

/-- The `batch_seqno` left behind by a run of batches. -/

theorem runLoop_goodRun (wl : Option (List String))
    (batches : List (Nat × List JItem)) :
    ∀ (ms : Memtables) (sq pos : Nat) (rest : List (Nat × JMarker)),
      runLoop wl (cleanState ms pos sq)
          (annotate pos (goodRun batches) ++ rest) =
        runLoop wl
          (cleanState (applyBatches wl ms batches)
            (pos + markersSize (goodRun batches))
            (lastSeqno batches sq)) rest := by
  induction batches with
  | nil =>
    intro ms sq pos rest
    simp [goodRun, annotate, markersSize, lastSeqno, applyBatches]
  | cons b bs ih =>
    intro ms sq pos rest
    obtain ⟨q, its⟩ := b
    rw [show goodRun ((q, its) :: bs) = batchMarkers q its ++ goodRun bs
      from rfl]
    rw [annotate_append, List.append_assoc, runLoop_batch, ih]
    have hsz : pos + markersSize (batchMarkers q its) +
        markersSize (goodRun bs) =
        pos + markersSize (batchMarkers q its ++ goodRun bs) := by
      rw [markersSize_append]
      omega
    rw [hsz]
    rfl

theorem recoverStep_item_stop {st : RecState} (hin : st.is_in_batch = false)
    (wl : Option (List String)) (pos : Nat)
    (p : String) (k v : List Nat) (t : RValueType) :
    recoverStep wl st (pos, JMarker.item p k v t) =
      StepOutcome.stop
        { st with
          hasher := crc32Update st.hasher (serializeItemMarker p k v t)
          truncated := some st.last_valid_pos } := by
  simp [recoverStep, hin]

theorem recoverStep_end_stop {st : RecState} (hc : st.batch_counter = 0)
    (hin : st.is_in_batch = false) (wl : Option (List String))
    (pos checksum : Nat) :
    recoverStep wl st (pos, JMarker.end_ checksum) =
      StepOutcome.stop { st with truncated := some st.last_valid_pos } := by
  simp [recoverStep, hc, hin]

theorem bool_false_of_not_true {b : Bool} (h : ¬ b = true) : b = false := by
  cases b
  · rfl
  · exact absurd rfl h

/-- A `next` step never records a truncation. -/

theorem recoverStep_next_truncated {wl : Option (List String)}
    {st st' : RecState} {pm : Nat × JMarker}
    (h : recoverStep wl st pm = StepOutcome.next st') :
    st'.truncated = st.truncated := by
  obtain ⟨pos, m⟩ := pm
  cases m with
  | start n q =>
    cases hb : st.is_in_batch
    · rw [recoverStep_start_ok hb wl pos n q] at h
      cases h
      rfl
    · rw [recoverStep_start_stop hb wl pos n q] at h
      cases h
  | item p k v t =>
    by_cases hb : st.is_in_batch = true
    · by_cases hc : st.batch_counter = 0
      · rw [recoverStep_item_tooMany hb hc wl pos p k v t] at h
        cases h
      · rw [recoverStep_item_ok hb hc wl pos p k v t] at h
        cases h
        rfl
    · rw [recoverStep_item_stop (bool_false_of_not_true hb) wl pos p k v t] at h
      cases h
  | end_ c =>
    by_cases hc : 0 < st.batch_counter
    · rw [recoverStep_end_insufficient hc wl pos c] at h
      cases h
    · have hc0 : st.batch_counter = 0 := by omega
      by_cases hb : st.is_in_batch = true
      · by_cases hcrc : crc32Final st.hasher = c
        · rw [recoverStep_end_ok hc0 hb hcrc wl pos] at h
          cases h
          rfl
        · rw [recoverStep_end_crc hc0 hb hcrc wl pos] at h
          cases h
      · rw [recoverStep_end_stop hc0 (bool_false_of_not_true hb) wl pos c] at h
        cases h

/-- A `fail` step never records a truncation. -/

theorem recoverStep_fail_truncated {wl : Option (List String)}
    {st st' : RecState} {pm : Nat × JMarker} {e : RecoveryError}
    (h : recoverStep wl st pm = StepOutcome.fail st' e) :
    st'.truncated = st.truncated := by
  obtain ⟨pos, m⟩ := pm
  cases m with
  | start n q =>
    cases hb : st.is_in_batch
    · rw [recoverStep_start_ok hb wl pos n q] at h
      cases h
    · rw [recoverStep_start_stop hb wl pos n q] at h
      cases h
  | item p k v t =>
    by_cases hb : st.is_in_batch = true
    · by_cases hc : st.batch_counter = 0
      · rw [recoverStep_item_tooMany hb hc wl pos p k v t] at h
        cases h
        rfl
      · rw [recoverStep_item_ok hb hc wl pos p k v t] at h
        cases h
    · rw [recoverStep_item_stop (bool_false_of_not_true hb) wl pos p k v t] at h
      cases h
  | end_ c =>
    by_cases hc : 0 < st.batch_counter
    · rw [recoverStep_end_insufficient hc wl pos c] at h
      cases h
      rfl
    · have hc0 : st.batch_counter = 0 := by omega
      by_cases hb : st.is_in_batch = true
      · by_cases hcrc : crc32Final st.hasher = c
        · rw [recoverStep_end_ok hc0 hb hcrc wl pos] at h
          cases h
        · rw [recoverStep_end_crc hc0 hb hcrc wl pos] at h
          cases h
          rfl
      · rw [recoverStep_end_stop hc0 (bool_false_of_not_true hb) wl pos c] at h
        cases h

/-- If the loop ends in an error, the truncation record is whatever the
starting state carried: the failing branches return the error without
truncating. -/

theorem runLoop_error_truncated (wl : Option (List String)) :
    ∀ (pms : List (Nat × JMarker)) (st : RecState) (e : RecoveryError),
      (runLoop wl st pms).error = some e →
      (runLoop wl st pms).state.truncated = st.truncated := by
  intro pms
  induction pms with
  | nil =>
    intro st e h
    simp [runLoop] at h
  | cons pm rest ih =>
    intro st e h
    cases hs : recoverStep wl st pm with
    | next st' =>
      rw [runLoop_next hs] at h ⊢
      exact (ih st' e h).trans (recoverStep_next_truncated hs)
    | stop st' =>
      rw [runLoop_stop hs] at h
      exact absurd h (by simp)
    | fail st' e' =>
      rw [runLoop_fail hs] at h ⊢
      exact recoverStep_fail_truncated hs

theorem finishRecovery_of_error {out : RecOutcome} {e : RecoveryError}
    (h : out.error = some e) : finishRecovery out = out := by
  unfold finishRecovery
  rw [h]

theorem finishRecovery_error_source {out : RecOutcome} {e : RecoveryError}
    (h : (finishRecovery out).error = some e) : out.error = some e := by
  unfold finishRecovery at h
  cases ho : out.error with
  | some e' =>
    rw [ho] at h
    have h' : out.error = some e := h
    exact ho.symm.trans h'
  | none =>
    rw [ho] at h
    by_cases hb : out.state.is_in_batch = true
    · rw [if_pos hb] at h
      exact absurd h (by simp)
    · rw [if_neg hb] at h
      rw [ho] at h
      exact absurd h (by simp)

/-- Whenever `recover_and_repair` returns an error, it has performed no
truncation. -/

theorem recoverAndRepair_error_no_truncation (wl : Option (List String))
    (ms : List JMarker) (e : RecoveryError)
    (h : (recoverAndRepair wl ms).error = some e) :
    (recoverAndRepair wl ms).state.truncated = none := by
  have h0 : (runLoop wl initRecState (annotate 0 ms)).error = some e := by
    unfold recoverAndRepair at h
    exact finishRecovery_error_source h
  unfold recoverAndRepair
  rw [finishRecovery_of_error h0]
  exact runLoop_error_truncated wl _ _ e h0

theorem initRecState_eq_clean : initRecState = cleanState (fun _ => []) 0 0 :=
  rfl

/-- Running recovery over a journal made of complete valid batches
followed by an open batch (a `Start` announcing `n` items of which only
`its` have been written, `extra` markers still to come) reaches the
corresponding mid-batch state. -/

theorem runLoop_scenario (wl : Option (List String))
    (batches : List (Nat × List JItem)) (n sq : Nat) (its : List JItem)
    (h : its.length ≤ n) (extra : List JMarker) :
    runLoop wl initRecState
        (annotate 0
          (goodRun batches ++
            JMarker.start n sq :: (its.map itemMarker ++ extra))) =
      runLoop wl
        ⟨crc32Update crc32Init (serializedItems its), true, n - its.length,
          sq, markersSize (goodRun batches), its,
          applyBatches wl (fun _ => []) batches, none⟩
        (annotate
          (markersSize (goodRun batches) + 13 +
            markersSize (its.map itemMarker)) extra) := by
  rw [annotate_append, initRecState_eq_clean, runLoop_goodRun]
  simp only [Nat.zero_add]
  rw [show annotate (markersSize (goodRun batches))
      (JMarker.start n sq :: (its.map itemMarker ++ extra)) =
      (markersSize (goodRun batches) + 13, JMarker.start n sq) ::
        annotate (markersSize (goodRun batches) + 13)
          (its.map itemMarker ++ extra) from rfl]
  rw [annotate_append]
  rw [runLoop_next (recoverStep_start_ok rfl wl _ n sq)]
  rw [runLoop_items wl its _ _ _ rfl h]
  simp only [cleanState, List.nil_append]

/-- The error carried by a loop-step outcome, if any. -/

theorem le_foldr_max {l : List Nat} {a : Nat} (h : a ∈ l) :
    a ≤ l.foldr max 0 := by
  induction l with
  | nil => cases h
  | cons x xs ih =>
    rcases List.mem_cons.1 h with h | h
    · subst h
      exact le_max_left _ _
    · exact le_trans (ih h) (le_max_right _ _)

/-- Rust `LruList.refresh` leaves at most one entry per name. -/

theorem refresh_nodup {l : LruList} (hn : l.Nodup) (p : String) :
    (LruList.refresh l p).Nodup := by
  unfold LruList.refresh
  apply List.Nodup.append (hn.filter _) (List.nodup_singleton p)
  intro a ha hb
  simp only [List.mem_singleton] at hb
  subst hb
  simp [List.mem_filter] at ha

/- ## Claim theorems -/

/-- Claim **C1** (code behavior at the failing input): committing a batch that
inserts key `[97]` into an empty tree leaves `get [97] = none` — the
memtable application inside `Batch::commit` is commented out, so the
batch is never applied to the active memtable. -/

theorem C1_batch_commit_not_visible :
    treeGet
      (batchCommit [⟨[97], [104, 101, 108, 108, 111], false⟩]
        ⟨[], [], [], 0⟩).2 [97] = none := rfl

/-- Claim **C4** (code behavior at the failing input): with a value currently
stored (`current = some [97]`) and `expected = none`, the code returns
the mismatch outcome with `prev = none` — not the currently stored
value — and performs no write. -/

theorem C4_cas_mismatch_drops_prev :
    compareAndSwap (some [97]) none (some [98]) [107] 5 =
      (Sum.inr ⟨none, some [98]⟩, none) := rfl

/-- Claim **C5** (counterexample): in `Tree::append_entry` the journal shard
guard is dropped *before* the memtable insert, so the claimed ordering
— memtable insert before the shard lock release — is false. -/

theorem C5_insert_not_under_shard_lock :
    ¬ posOf WriteEvent.memtableInsert appendEntryEvents <
        posOf WriteEvent.releaseShardLock appendEntryEvents := by
  decide

/-- Claim **C5** (amended): in `Tree::insert` / `Tree::remove` the new record
is inserted into the active memtable *after* the journal shard lock is
released but *before* the call returns, so after a successful write
returns the value is visible to subsequent reads: `get` of the inserted
key yields the value, and a removed key reads as absent. -/

theorem C5_memtable_insert_before_return :
    (posOf WriteEvent.releaseShardLock appendEntryEvents <
        posOf WriteEvent.memtableInsert appendEntryEvents ∧
      posOf WriteEvent.memtableInsert appendEntryEvents <
        posOf WriteEvent.returnOk appendEntryEvents) ∧
    ∀ (s : TreeState) (k v : List Nat), lsnFresh s →
      treeGet (treeInsert s k v) k = some v ∧
      treeGet (treeRemove s k) k = none := by
  refine ⟨⟨by decide, by decide⟩, ?_⟩
  intro s k v h
  exact ⟨treeGet_after_insert h, treeGet_after_remove h⟩

theorem C5_memtable_insert_before_return_witness :
    lsnFresh ⟨[], [], [], 0⟩ ∧
    (treeGet (treeInsert ⟨[], [], [], 0⟩ [1] [2]) [1] = some [2] ∧
      treeGet (treeRemove ⟨[], [], [], 0⟩ [1]) [1] = none) :=
  ⟨by decide, C5_memtable_insert_before_return.2 ⟨[], [], [], 0⟩ [1] [2]
    (by decide)⟩

/-- Claim **C7**: with no other writers, `insert(k,v)` followed by `remove(k)`
yields `get(k) = none`; the tombstone carries a strictly higher seqno
than the insert (`s.lsn < (treeInsert s k v).lsn`, the seqno the remove
then draws). -/

theorem C7_tombstone_shadowing (s : TreeState) (k v : List Nat)
    (h : lsnFresh s) :
    treeGet (treeRemove (treeInsert s k v) k) k = none ∧
    s.lsn < (treeInsert s k v).lsn := by
  exact ⟨treeGet_after_remove (lsnFresh_insert h), Nat.lt_succ_self _⟩

theorem C7_tombstone_shadowing_witness :
    lsnFresh ⟨[], [], [], 0⟩ ∧
    (treeGet (treeRemove (treeInsert ⟨[], [], [], 0⟩ [1] [2]) [1]) [1] = none ∧
      (⟨[], [], [], 0⟩ : TreeState).lsn <
        (treeInsert ⟨[], [], [], 0⟩ [1] [2]).lsn) :=
  ⟨by decide, C7_tombstone_shadowing ⟨[], [], [], 0⟩ [1] [2] (by decide)⟩

/-- Claim **C8**: every record a `Batch::commit` writes carries the same
seqno, namely the pre-increment value of the counter, and the counter is
bumped exactly once for the whole batch. -/

theorem C8_batch_single_seqno (data : List BatchEntry) (s : TreeState) :
    (∀ r ∈ (batchCommit data s).1, r.seqno = s.lsn) ∧
    (batchCommit data s).2.lsn = s.lsn + 1 := by
  constructor
  · intro r hr
    simp only [batchCommit, List.mem_map] at hr
    obtain ⟨e, _, he⟩ := hr
    rw [← he]
  · rfl

theorem C8_batch_single_seqno_witness :
    (∀ r ∈ (batchCommit [⟨[1], [2], false⟩, ⟨[3], [], true⟩]
        ⟨[], [], [], 5⟩).1, r.seqno = 5) ∧
    (batchCommit [⟨[1], [2], false⟩, ⟨[3], [], true⟩]
      ⟨[], [], [], 5⟩).2.lsn = 6 :=
  C8_batch_single_seqno [⟨[1], [2], false⟩, ⟨[3], [], true⟩] ⟨[], [], [], 5⟩

/-- Claim **C9**: the lsn computed by `Tree::recover` is strictly above every
seqno in the recovered memtable and every segment's max seqno; any
record a subsequent run of inserts adds (from a state whose counter is
at least that lsn) carries a seqno strictly above `q` as well. -/

theorem C9_recovered_lsn_fresh (mem segs : List Nat) (q : Nat)
    (hq : q ∈ mem ∨ q ∈ segs) :
    q < recoveredLsn mem segs ∧
    ∀ (s : TreeState) (ws : List (List Nat × List Nat)),
      recoveredLsn mem segs ≤ s.lsn →
      ∀ r ∈ (applyInserts s ws).active, r ∈ s.active ∨ q < r.seqno := by
  have hlt : q < recoveredLsn mem segs := by
    rcases hq with hq | hq
    · have : q + 1 ≤ (mem.map (· + 1)).foldr max 0 :=
        le_foldr_max (List.mem_map_of_mem _ hq)
      have h2 := le_max_left ((mem.map (· + 1)).foldr max 0)
        ((segs.map (· + 1)).foldr max 0)
      unfold recoveredLsn
      omega
    · have : q + 1 ≤ (segs.map (· + 1)).foldr max 0 :=
        le_foldr_max (List.mem_map_of_mem _ hq)
      have h2 := le_max_right ((mem.map (· + 1)).foldr max 0)
        ((segs.map (· + 1)).foldr max 0)
      unfold recoveredLsn
      omega
  refine ⟨hlt, ?_⟩
  intro s ws hs r hr
  rcases applyInserts_active_spec ws s r hr with hmem | hge
  · exact Or.inl hmem
  · exact Or.inr (by omega)

theorem C9_recovered_lsn_fresh_witness :
    (5 ∈ [3, 5] ∨ 5 ∈ [4]) ∧
    (5 < recoveredLsn [3, 5] [4] ∧
      ∀ (s : TreeState) (ws : List (List Nat × List Nat)),
        recoveredLsn [3, 5] [4] ≤ s.lsn →
        ∀ r ∈ (applyInserts s ws).active, r ∈ s.active ∨ 5 < r.seqno) :=
  ⟨by decide, C9_recovered_lsn_fresh [3, 5] [4] 5 (by decide)⟩

/-- Claim **C10**: the flush manager's LRU list holds at most one entry per
partition name; `refresh` and `flush_least_recently_used_partition`
preserve this; the latter returns the front (least recently refreshed)
partition and re-inserts it at the back (most recently used), or `none`
on an empty list. -/

theorem C10_lru_list (l : LruList) (p : String) (hn : l.Nodup) :
    (LruList.refresh l p).Nodup ∧
    (LruList.getLeastRecentlyUsed l).2.Nodup ∧
    (l = [] → LruList.getLeastRecentlyUsed l = (none, [])) ∧
    (∀ f rest, l = f :: rest →
      LruList.getLeastRecentlyUsed l = (some f, rest ++ [f])) := by
  refine ⟨refresh_nodup hn p, ?_, ?_, ?_⟩
  · cases l with
    | nil => exact List.nodup_nil
    | cons f rest =>
      exact refresh_nodup (List.Nodup.of_cons hn) f
  · intro h
    subst h
    rfl
  · intro f rest h
    subst h
    simp only [LruList.getLeastRecentlyUsed, LruList.refresh]
    rw [List.filter_eq_self.mpr]
    intro a ha
    have : f ∉ rest := (List.nodup_cons.1 hn).1
    simp only [ne_eq, decide_eq_true_eq]
    intro ha'
    exact this (ha' ▸ ha)

theorem C10_lru_list_witness :
    (["a", "b"] : LruList).Nodup ∧
    ((LruList.refresh ["a", "b"] "c").Nodup ∧
      (LruList.getLeastRecentlyUsed ["a", "b"]).2.Nodup ∧
      ((["a", "b"] : LruList) = [] →
        LruList.getLeastRecentlyUsed ["a", "b"] = (none, [])) ∧
      (∀ f rest, (["a", "b"] : LruList) = f :: rest →
        LruList.getLeastRecentlyUsed ["a", "b"] = (some f, rest ++ [f]))) :=
  ⟨by decide, C10_lru_list ["a", "b"] "c" (by decide)⟩

theorem stepErr_item_iff (wl : Option (List String)) (st : RecState)
    (pos : Nat) (p : String) (k v : List Nat) (t : RValueType) :
    (recoverStep wl st (pos, JMarker.item p k v t)).err =
        some RecoveryError.tooManyItems ↔
      st.is_in_batch = true ∧ st.batch_counter = 0 := by
  by_cases hb : st.is_in_batch = true
  · by_cases hc : st.batch_counter = 0
    · rw [recoverStep_item_tooMany hb hc wl pos p k v t]
      simp [StepOutcome.err, hb, hc]
    · rw [recoverStep_item_ok hb hc wl pos p k v t]
      simp [StepOutcome.err, hc]
  · rw [recoverStep_item_stop (bool_false_of_not_true hb) wl pos p k v t]
    simp [StepOutcome.err, hb]

theorem stepErr_end_insufficient_iff (wl : Option (List String))
    (st : RecState) (pos c : Nat) :
    (recoverStep wl st (pos, JMarker.end_ c)).err =
        some RecoveryError.insufficientLength ↔
      0 < st.batch_counter := by
  by_cases hc : 0 < st.batch_counter
  · rw [recoverStep_end_insufficient hc wl pos c]
    simp [StepOutcome.err, hc]
  · have hc0 : st.batch_counter = 0 := by omega
    by_cases hb : st.is_in_batch = true
    · by_cases hcrc : crc32Final st.hasher = c
      · rw [recoverStep_end_ok hc0 hb hcrc wl pos]
        simp only [StepOutcome.err]
        constructor
        · intro hh
          exact absurd hh (by simp)
        · intro hh
          omega
      · rw [recoverStep_end_crc hc0 hb hcrc wl pos]
        simp only [StepOutcome.err, Option.some.injEq]
        constructor
        · intro hh
          cases hh
        · intro hh
          omega
    · rw [recoverStep_end_stop hc0 (bool_false_of_not_true hb) wl pos c]
      simp only [StepOutcome.err]
      constructor
      · intro hh
        exact absurd hh (by simp)
      · intro hh
        omega

theorem stepErr_end_crc_iff (wl : Option (List String))
    (st : RecState) (pos c : Nat) :
    (recoverStep wl st (pos, JMarker.end_ c)).err =
        some RecoveryError.crcCheck ↔
      st.batch_counter = 0 ∧ st.is_in_batch = true ∧
        crc32Final st.hasher ≠ c := by
  by_cases hc : 0 < st.batch_counter
  · rw [recoverStep_end_insufficient hc wl pos c]
    simp only [StepOutcome.err, Option.some.injEq]
    constructor
    · intro hh
      cases hh
    · intro hh
      omega
  · have hc0 : st.batch_counter = 0 := by omega
    by_cases hb : st.is_in_batch = true
    · by_cases hcrc : crc32Final st.hasher = c
      · rw [recoverStep_end_ok hc0 hb hcrc wl pos]
        simp [StepOutcome.err, hcrc]
      · rw [recoverStep_end_crc hc0 hb hcrc wl pos]
        simp [StepOutcome.err, hc0, hb, hcrc]
    · rw [recoverStep_end_stop hc0 (bool_false_of_not_true hb) wl pos c]
      simp [StepOutcome.err, bool_false_of_not_true hb]

theorem stepErr_start_none (wl : Option (List String)) (st : RecState)
    (pos n q : Nat) :
    (recoverStep wl st (pos, JMarker.start n q)).err = none := by
  cases hb : st.is_in_batch
  · rw [recoverStep_start_ok hb wl pos n q]
    rfl
  · rw [recoverStep_start_stop hb wl pos n q]
    rfl

/-- Claim **C2**: a shard whose byte stream is a run of complete valid batches
followed at EOF by an open batch (a `Start` marker and at most the
announced number of `Item` markers, no terminating `End`) recovers with
no error, truncated to the byte offset just after the last successfully
validated `End` marker, and with the memtables holding exactly the
complete batches' items — none of the incomplete batch's. -/

theorem C2_torn_tail_self_healed (wl : Option (List String))
    (batches : List (Nat × List JItem)) (n sq : Nat) (its : List JItem)
    (h : its.length ≤ n) :
    (recoverAndRepair wl
        (goodRun batches ++ JMarker.start n sq :: its.map itemMarker)).error =
      none ∧
    (recoverAndRepair wl
        (goodRun batches ++
          JMarker.start n sq :: its.map itemMarker)).state.truncated =
      some (markersSize (goodRun batches)) ∧
    (recoverAndRepair wl
        (goodRun batches ++
          JMarker.start n sq :: its.map itemMarker)).state.memtables =
      applyBatches wl (fun _ => []) batches := by
  have hrun := runLoop_scenario wl batches n sq its h []
  rw [show its.map itemMarker ++ ([] : List JMarker) = its.map itemMarker
    from List.append_nil _] at hrun
  unfold recoverAndRepair
  rw [hrun]
  exact ⟨rfl, rfl, rfl⟩

theorem C2_torn_tail_self_healed_witness :
    ([(⟨"p", [3], [4], RValueType.value⟩ : JItem)].length ≤ 2) ∧
    ((recoverAndRepair none
        (goodRun [(7, [⟨"p", [1], [2], RValueType.value⟩])] ++
          JMarker.start 2 9 ::
            [(⟨"p", [3], [4], RValueType.value⟩ : JItem)].map itemMarker)).error =
      none ∧
    (recoverAndRepair none
        (goodRun [(7, [⟨"p", [1], [2], RValueType.value⟩])] ++
          JMarker.start 2 9 ::
            [(⟨"p", [3], [4], RValueType.value⟩ : JItem)].map itemMarker)).state.truncated =
      some (markersSize (goodRun [(7, [⟨"p", [1], [2], RValueType.value⟩])])) ∧
    (recoverAndRepair none
        (goodRun [(7, [⟨"p", [1], [2], RValueType.value⟩])] ++
          JMarker.start 2 9 ::
            [(⟨"p", [3], [4], RValueType.value⟩ : JItem)].map itemMarker)).state.memtables =
      applyBatches none (fun _ => []) [(7, [⟨"p", [1], [2], RValueType.value⟩])]) :=
  ⟨by decide,
    C2_torn_tail_self_healed none [(7, [⟨"p", [1], [2], RValueType.value⟩])]
      2 9 [⟨"p", [3], [4], RValueType.value⟩] (by decide)⟩

/-- Claim **C3**: journal recovery fails with `TooManyItems` exactly on an
`Item` inside an open batch whose remaining item count is zero, with
`InsufficientLength` exactly on an `End` while the remaining item count
is still positive, and with `CrcCheck` exactly on an `End` whose
checksum differs from the CRC-32 the loop computed over the batch's
serialized `Item` records; a `Start` marker never fails.  Each failure
is reproduced at the end of a journal of valid batches, and a failing
recovery performs no truncation. -/

theorem C3_recovery_error_conditions :
    (∀ (wl : Option (List String)) (st : RecState) (pos : Nat)
        (p : String) (k v : List Nat) (t : RValueType),
      (recoverStep wl st (pos, JMarker.item p k v t)).err =
          some RecoveryError.tooManyItems ↔
        st.is_in_batch = true ∧ st.batch_counter = 0) ∧
    (∀ (wl : Option (List String)) (st : RecState) (pos c : Nat),
      (recoverStep wl st (pos, JMarker.end_ c)).err =
          some RecoveryError.insufficientLength ↔
        0 < st.batch_counter) ∧
    (∀ (wl : Option (List String)) (st : RecState) (pos c : Nat),
      (recoverStep wl st (pos, JMarker.end_ c)).err =
          some RecoveryError.crcCheck ↔
        st.batch_counter = 0 ∧ st.is_in_batch = true ∧
          crc32Final st.hasher ≠ c) ∧
    (∀ (wl : Option (List String)) (st : RecState) (pos n q : Nat),
      (recoverStep wl st (pos, JMarker.start n q)).err = none) ∧
    (∀ (wl : Option (List String)) (bs : List (Nat × List JItem))
        (sq : Nat) (its : List JItem) (x : JItem) (more : List JMarker),
      (recoverAndRepair wl
          (goodRun bs ++ JMarker.start its.length sq ::
            (its.map itemMarker ++ (itemMarker x :: more)))).error =
        some RecoveryError.tooManyItems ∧
      (recoverAndRepair wl
          (goodRun bs ++ JMarker.start its.length sq ::
            (its.map itemMarker ++ (itemMarker x :: more)))).state.truncated =
        none) ∧
    (∀ (wl : Option (List String)) (bs : List (Nat × List JItem))
        (n sq : Nat) (its : List JItem) (c : Nat) (more : List JMarker),
      its.length < n →
      (recoverAndRepair wl
          (goodRun bs ++ JMarker.start n sq ::
            (its.map itemMarker ++ (JMarker.end_ c :: more)))).error =
        some RecoveryError.insufficientLength ∧
      (recoverAndRepair wl
          (goodRun bs ++ JMarker.start n sq ::
            (its.map itemMarker ++ (JMarker.end_ c :: more)))).state.truncated =
        none) ∧
    (∀ (wl : Option (List String)) (bs : List (Nat × List JItem))
        (sq : Nat) (its : List JItem) (c : Nat) (more : List JMarker),
      c ≠ crc32 (serializedItems its) →
      (recoverAndRepair wl
          (goodRun bs ++ JMarker.start its.length sq ::
            (its.map itemMarker ++ (JMarker.end_ c :: more)))).error =
        some RecoveryError.crcCheck ∧
      (recoverAndRepair wl
          (goodRun bs ++ JMarker.start its.length sq ::
            (its.map itemMarker ++ (JMarker.end_ c :: more)))).state.truncated =
        none) ∧
    (∀ (wl : Option (List String)) (ms : List JMarker) (e : RecoveryError),
      (recoverAndRepair wl ms).error = some e →
      (recoverAndRepair wl ms).state.truncated = none) := by
  refine ⟨stepErr_item_iff, stepErr_end_insufficient_iff,
    stepErr_end_crc_iff, stepErr_start_none, ?_, ?_, ?_,
    recoverAndRepair_error_no_truncation⟩
  · intro wl bs sq its x more
    have hrun := runLoop_scenario wl bs its.length sq its (le_refl _)
      (itemMarker x :: more)
    rw [Nat.sub_self] at hrun
    unfold recoverAndRepair
    rw [hrun]
    obtain ⟨xp, xk, xv, xt⟩ := x
    simp only [itemMarker, annotate]
    rw [runLoop_fail (recoverStep_item_tooMany rfl rfl wl _ xp xk xv xt)]
    exact ⟨rfl, rfl⟩
  · intro wl bs n sq its c more hlt
    have hrun := runLoop_scenario wl bs n sq its (le_of_lt hlt)
      (JMarker.end_ c :: more)
    unfold recoverAndRepair
    rw [hrun]
    simp only [annotate]
    rw [runLoop_fail
      (recoverStep_end_insufficient (show 0 < n - its.length by omega) wl _ c)]
    exact ⟨rfl, rfl⟩
  · intro wl bs sq its c more hcrc
    have hrun := runLoop_scenario wl bs its.length sq its (le_refl _)
      (JMarker.end_ c :: more)
    rw [Nat.sub_self] at hrun
    unfold recoverAndRepair
    rw [hrun]
    simp only [annotate]
    rw [runLoop_fail (recoverStep_end_crc rfl rfl (Ne.symm hcrc) wl _)]
    exact ⟨rfl, rfl⟩

theorem C3_recovery_error_conditions_witness :
    ([(⟨"p", [1], [2], RValueType.value⟩ : JItem)].length < 2) ∧
    ((recoverAndRepair none
        (goodRun [] ++ JMarker.start 2 5 ::
          ([(⟨"p", [1], [2], RValueType.value⟩ : JItem)].map itemMarker ++
            (JMarker.end_ 0 :: [])))).error =
      some RecoveryError.insufficientLength ∧
    (recoverAndRepair none
        (goodRun [] ++ JMarker.start 2 5 ::
          ([(⟨"p", [1], [2], RValueType.value⟩ : JItem)].map itemMarker ++
            (JMarker.end_ 0 :: [])))).state.truncated = none) :=
  ⟨by decide,
    C3_recovery_error_conditions.2.2.2.2.2.1 none [] 2 5
      [⟨"p", [1], [2], RValueType.value⟩] 0 [] (by decide)⟩

/-- Claim **C6**: under the per-key layering invariant (records in newer
layers carry strictly larger seqnos than records in older layers),
`Tree::get` — active memtable first, sealed memtables newest first,
then segments newest first, first match winning — returns exactly the
value of the highest-seqno record for the key across all layers, and
`none` when that record is a tombstone or no record exists. -/

theorem C6_layered_lookup_equivalence (s : TreeState) (k : List Nat)
    (h : layersOrderedAt s.layers k) :
    treeGet s k = globalGet s k ∧
    ∀ r, newestOf (recordsFor s.allRecords k) = some r →
      (∀ x ∈ recordsFor s.allRecords k, x.seqno ≤ r.seqno) ∧
      (r.value_type = RValueType.tombstone → treeGet s k = none) ∧
      (r.value_type = RValueType.value → treeGet s k = some r.value) := by
  have h1 : getInternalEntry s k =
      (newestOf (recordsFor s.allRecords k)).bind ignore_tombstone_value := by
    rw [getInternalEntry_eq_lookupLayers, lookupLayers_eq_newest h,
      layers_flatten]
  constructor
  · simp only [treeGet, globalGet, h1]
  · intro r hr
    refine ⟨newestOf_is_max hr, ?_, ?_⟩
    · intro ht
      simp [treeGet, h1, hr, ignore_tombstone_value, ht]
    · intro hv
      simp [treeGet, h1, hr, ignore_tombstone_value, hv]

theorem C6_layered_lookup_equivalence_witness :
    layersOrderedAt
      (TreeState.layers
        ⟨[⟨[1], [9], 3, RValueType.value⟩],
          [[⟨[1], [8], 2, RValueType.value⟩]],
          [[⟨[1], [7], 1, RValueType.tombstone⟩]], 4⟩) [1] ∧
    (treeGet
        ⟨[⟨[1], [9], 3, RValueType.value⟩],
          [[⟨[1], [8], 2, RValueType.value⟩]],
          [[⟨[1], [7], 1, RValueType.tombstone⟩]], 4⟩ [1] =
      globalGet
        ⟨[⟨[1], [9], 3, RValueType.value⟩],
          [[⟨[1], [8], 2, RValueType.value⟩]],
          [[⟨[1], [7], 1, RValueType.tombstone⟩]], 4⟩ [1] ∧
    ∀ r, newestOf (recordsFor
        (TreeState.allRecords
          ⟨[⟨[1], [9], 3, RValueType.value⟩],
            [[⟨[1], [8], 2, RValueType.value⟩]],
            [[⟨[1], [7], 1, RValueType.tombstone⟩]], 4⟩) [1]) = some r →
      (∀ x ∈ recordsFor
          (TreeState.allRecords
            ⟨[⟨[1], [9], 3, RValueType.value⟩],
              [[⟨[1], [8], 2, RValueType.value⟩]],
              [[⟨[1], [7], 1, RValueType.tombstone⟩]], 4⟩) [1],
        x.seqno ≤ r.seqno) ∧
      (r.value_type = RValueType.tombstone →
        treeGet
          ⟨[⟨[1], [9], 3, RValueType.value⟩],
            [[⟨[1], [8], 2, RValueType.value⟩]],
            [[⟨[1], [7], 1, RValueType.tombstone⟩]], 4⟩ [1] = none) ∧
      (r.value_type = RValueType.value →
        treeGet
          ⟨[⟨[1], [9], 3, RValueType.value⟩],
            [[⟨[1], [8], 2, RValueType.value⟩]],
            [[⟨[1], [7], 1, RValueType.tombstone⟩]], 4⟩ [1] =
          some r.value)) :=
  ⟨by decide,
    C6_layered_lookup_equivalence
      ⟨[⟨[1], [9], 3, RValueType.value⟩],
        [[⟨[1], [8], 2, RValueType.value⟩]],
        [[⟨[1], [7], 1, RValueType.tombstone⟩]], 4⟩ [1] (by decide)⟩
